import Mathlib

/-! # tunadb: data redistribution handler (`internal/dataBalancing/handler.go`)

A shallow embedding of `DistributionHandler` and its methods, followed by the
properties established for them.

Conventions of the embedding

* Go `uint64` values (tokens, ports, hash keys) are natural numbers; wrap-around
  is written explicitly as `% 2 ^ 64` where the source can overflow.
* Go `int` is a 64-bit two's complement integer, embedded in `Int`; the result
  of an addition is passed through `wrapInt`.
* A Go `map[string]string` is an association list read with `List.lookup`; a
  missing key reads as the empty string where Go's one-result index expression
  is used and as `none` where the comma-ok form is used.
* `go f(x)` is recorded as an entry `x` of the list of spawned calls, in spawn
  order. The handler's mutex only serialises calls and is not represented.
* Log statements have no effect on the results and are left out.
-/

namespace DataBalancing

/-! ## Data model -/

/-- Modelled from the spec: `types.Node` is declared in another package of the
repository; these are the fields of a physical node the handler and its test
read (identity, address, port, display name). -/
structure Node where
  ID : String
  IPAddress : String
  Port : Nat
  Name : String
  deriving DecidableEq, Repr

/-- Modelled from the spec: `ring.TokenRange` is declared in another package of
the repository; a range `(Start, End]` of 64-bit tokens on the ring, which may
wrap (`Start > End`). -/
structure TokenRange where
  Start : Nat
  End : Nat
  deriving DecidableEq, Repr

/-- Modelled from the spec: `ring.ConsistentHashingRing` is declared in another
package of the repository; the handler reads it only through `GetRingMembers()`
and `GetTokenRangeForNode(id)`, whose results are the two fields. -/
structure ConsistentHashingRing where
  GetRingMembers : List Node
  GetTokenRangeForNode : String → List TokenRange

/-- The `DistributionHandler` struct (handler.go, lines 19-25), without its mutex. -/
structure DistributionHandler where
  Ring : ConsistentHashingRing
  CurrentNode : Node
  absolutePathSaveDir : String
  MaxBatchSize : Int

/-- A Go `map[string][]ring.TokenRange`: the old per-node token ranges. -/
abbrev RangeMap := String → Option (List TokenRange)

/-- The index expression `oldTokenRanges[id]`: the nil slice for a missing key. -/
def RangeMap.index (m : RangeMap) (id : String) : List TokenRange :=
  (m id).getD []

/-! ## `TriggerDataRedistribution` (handler.go, lines 90-114) -/

/-- The inner loop of lines 100-106: `found` after scanning the old ranges of
the replica for one with the same `Start` and the same `End`. -/
def rangeFound (tokenRange : TokenRange) : List TokenRange → Bool
  | [] => false
  | oldTokenRange :: rest =>
    if tokenRange.Start == oldTokenRange.Start && tokenRange.End == oldTokenRange.End then
      true
    else
      rangeFound tokenRange rest

/-- The loop over `tokenRanges` (lines 98-110) for one ring member: the calls
`go dh.sendDataForTokenRange(replica, tokenRange)` it makes, in order. -/
def spawnForRanges (dh : DistributionHandler) (oldTokenRanges : RangeMap) (replica : Node) :
    List TokenRange → List (Node × TokenRange)
  | [] => []
  | tokenRange :: rest =>
    let found := rangeFound tokenRange (oldTokenRanges.index replica.ID)
    if !found && replica.ID != dh.CurrentNode.ID then
      (replica, tokenRange) :: spawnForRanges dh oldTokenRanges replica rest
    else
      spawnForRanges dh oldTokenRanges replica rest

/-- The loop over `dh.Ring.GetRingMembers()` (lines 96-111). -/
def spawnForMembers (dh : DistributionHandler) (oldTokenRanges : RangeMap) :
    List Node → List (Node × TokenRange)
  | [] => []
  | replica :: rest =>
    spawnForRanges dh oldTokenRanges replica (dh.Ring.GetTokenRangeForNode replica.ID)
      ++ spawnForMembers dh oldTokenRanges rest

/-- What a call of `TriggerDataRedistribution` does: the handoffs it spawns
and the error it returns. -/
structure TriggerOutcome where
  spawned : List (Node × TokenRange)
  err : Option String
  deriving DecidableEq, Repr

/-- The method `TriggerDataRedistribution`: it always returns a nil error. -/
def TriggerDataRedistribution (dh : DistributionHandler) (oldTokenRanges : RangeMap) :
    TriggerOutcome :=
  { spawned := spawnForMembers dh oldTokenRanges dh.Ring.GetRingMembers
    err := none }

/-! ## The ring view of the specification

`TriggerDataRedistribution` reads the ring through two calls only. Statements
that speak of replica sets need the placement rules themselves; they are
written down here from the specification of the ring view (its section 4.2). -/

/-- Modelled from the spec: the ring view, an ordered mapping from virtual
token to node id (`vnodes`, tokens ascending and unique), the physical nodes
and the replication factor `R`; the ring package is not part of the sources. -/
structure RingView where
  vnodes : List (Nat × String)
  nodes : List Node
  R : Nat

/-- Modelled from the spec: "the predecessor of token t is the largest t' < t in
the token set, wrapping to the maximum token if t is the minimum". -/
def predecessor (tokens : List Nat) (t : Nat) : Nat :=
  match tokens.filter (fun u => decide (u < t)) with
  | [] => tokens.foldl max 0
  | u :: us => (u :: us).foldl max 0

/-- Modelled from the spec: `ranges_owned_by(id)`, "for each virtual token t of
id, emit (predecessor(t), t]". -/
def ranges_owned_by (rv : RingView) (id : String) : List TokenRange :=
  (rv.vnodes.filter (fun v => decide (v.2 = id))).map
    (fun v => { Start := predecessor (rv.vnodes.map Prod.fst) v.1, End := v.1 })

/-- Collect distinct node ids along a walk until `R` are found or the walk is
exhausted. -/
def collectDistinct (R : Nat) : List (Nat × String) → List String → List String
  | [], acc => acc
  | v :: rest, acc =>
    if acc.length ≥ R then acc
    else if v.2 ∈ acc then collectDistinct R rest acc
    else collectDistinct R rest (acc ++ [v.2])

/-- Modelled from the spec: `replicas_for(token)`, "starting at the smallest
virtual token ≥ token (wrapping), walk the ring collecting distinct physical
node ids until R are found or the ring is exhausted". -/
def replicas_for (rv : RingView) (token : Nat) : List String :=
  collectDistinct rv.R
    (rv.vnodes.filter (fun v => decide (token ≤ v.1))
      ++ rv.vnodes.filter (fun v => decide (v.1 < token))) []

/-- The ring as the handler reads it, for a ring view of the specification. -/
def RingView.toRing (rv : RingView) : ConsistentHashingRing :=
  { GetRingMembers := rv.nodes
    GetTokenRangeForNode := ranges_owned_by rv }

/-- Modelled from the spec: membership of a token in the half-open range
`(Start, End]`, which wraps when `Start ≥ End`. -/
def TokenRange.contains (r : TokenRange) (t : Nat) : Bool :=
  if r.Start < r.End then decide (r.Start < t) && decide (t ≤ r.End)
  else decide (r.Start < t) || decide (t ≤ r.End)

/-- Two ranges intersect when some 64-bit token lies in both. -/
def rangesIntersect (a b : TokenRange) : Prop :=
  ∃ t : Nat, t < 2 ^ 64 ∧ a.contains t = true ∧ b.contains t = true

/-! A concrete ring change: four nodes, one virtual node each, replication
factor 2. Before the change the ring holds `n0`, `n2`, `n3`; then `n1` joins
with token 150. -/

def exNode0 : Node :=
  { ID := "n0", IPAddress := "localhost", Port := 9000, Name := "cassandra-node0" }

def exNode1 : Node :=
  { ID := "n1", IPAddress := "localhost", Port := 9001, Name := "cassandra-node1" }

def exNode2 : Node :=
  { ID := "n2", IPAddress := "localhost", Port := 9002, Name := "cassandra-node2" }

def exNode3 : Node :=
  { ID := "n3", IPAddress := "localhost", Port := 9003, Name := "cassandra-node3" }

def exOldView : RingView :=
  { vnodes := [(100, "n0"), (200, "n2"), (250, "n3")]
    nodes := [exNode0, exNode2, exNode3]
    R := 2 }

def exNewView : RingView :=
  { vnodes := [(100, "n0"), (150, "n1"), (200, "n2"), (250, "n3")]
    nodes := [exNode0, exNode1, exNode2, exNode3]
    R := 2 }

/-- The old per-node token ranges captured before `n1` joined. -/
def exOldRanges : RangeMap := fun id =>
  if id ∈ exOldView.nodes.map Node.ID then some (ranges_owned_by exOldView id) else none

/-- The same old ranges with the entry of `n0` removed. -/
def exOldRangesWithoutSelf : RangeMap := fun id =>
  if id = "n0" then none else exOldRanges id

/-- The handler of node `n0` on the ring after the change. -/
def exHandler : DistributionHandler :=
  { Ring := exNewView.toRing
    CurrentNode := exNode0
    absolutePathSaveDir := "data/n0.json"
    MaxBatchSize := 100 }

/-! ## `strconv.ParseUint` and `strconv.ParseInt` in base 10

The two library functions the handler calls, specialised to the base 10 it
passes. A Go string is a byte sequence; here it is a `String`, read character
by character. A character outside ASCII stands for bytes of value 128 or more,
none of which is a digit or a letter for `ParseUint`, so both readings reject
the string at the same place with the same error. -/

/-- The error kinds of `strconv.NumError`: `ErrSyntax` and `ErrRange`. -/
inductive NumError where
  | ErrSyntax
  | ErrRange
  deriving DecidableEq, Repr

/-- The constant `strconv.IntSize`: the size in bits of an `int`. -/
def IntSize : Nat := 64

/-- The constant `maxUint64`. -/
def maxUint64 : Nat := 2 ^ 64 - 1

/-- The helper `lower(c)`: `c | ('x' - 'X')`. -/
def lower (c : Nat) : Nat := c ||| 0x20

/-- The digit loop of `ParseUint` for base 10 (`base0` is false, so an
underscore is no separator): the value and error returned from the loop state
`n` on the remaining characters. -/
def parseUintLoop (maxVal : Nat) : List Char → Nat → Nat × Option NumError
  | [], n => (n, none)
  | ch :: rest, n =>
    let c := ch.toNat
    let d : Option Nat :=
      if 48 ≤ c ∧ c ≤ 57 then some (c - 48)
      else if 97 ≤ lower c ∧ lower c ≤ 122 then some (lower c - 97 + 10)
      else none
    match d with
    | none => (0, some NumError.ErrSyntax)
    | some d =>
      if d ≥ 10 then (0, some NumError.ErrSyntax)
      else if n ≥ maxUint64 / 10 + 1 then (maxVal, some NumError.ErrRange)
      else
        let n10 := n * 10 % 2 ^ 64
        let n1 := (n10 + d) % 2 ^ 64
        if n1 < n10 ∨ n1 > maxVal then (maxVal, some NumError.ErrRange)
        else parseUintLoop maxVal rest n1

/-- The call `strconv.ParseUint(s, 10, bitSize)` for `0 ≤ bitSize ≤ 64`: the
value and the error it returns. -/
def ParseUint (s : List Char) (bitSize : Nat) : Nat × Option NumError :=
  if s = [] then (0, some NumError.ErrSyntax)
  else
    let bitSize := if bitSize = 0 then IntSize else bitSize
    let maxVal := 2 ^ bitSize - 1
    parseUintLoop maxVal s 0

/-- Two's complement wrap of an integer to 64 bits: the value of a Go `int` or
`int64` expression whose exact result is `x`. -/
def wrapInt (x : Int) : Int := (x + 2 ^ 63) % 2 ^ 64 - 2 ^ 63

/-- The call `strconv.ParseInt(s, 10, bitSize)` for `0 ≤ bitSize ≤ 64`: the
value and the error it returns. -/
def ParseInt (s : List Char) (bitSize : Nat) : Int × Option NumError :=
  if s = [] then (0, some NumError.ErrSyntax)
  else
    let (neg, digits) :=
      match s with
      | '+' :: rest => (false, rest)
      | '-' :: rest => (true, rest)
      | _ => (false, s)
    let (un, err) := ParseUint digits bitSize
    if err = some NumError.ErrSyntax then (0, err)
    else
      let bitSize := if bitSize = 0 then IntSize else bitSize
      let cutoff : Nat := 2 ^ (bitSize - 1)
      if !neg && decide (un ≥ cutoff) then ((cutoff : Int) - 1, some NumError.ErrRange)
      else if neg && decide (un > cutoff) then (-(cutoff : Int), some NumError.ErrRange)
      else
        let n := wrapInt un
        (if neg then wrapInt (-n) else n, none)

/-! ## `NewDistributionHandler` (handler.go, lines 28-42) -/

/-- The process environment: the value of each variable that is set. -/
abbrev Environ := String → Option String

/-- The call `os.Getenv(key)`: the empty string for a variable that is not set. -/
def Getenv (env : Environ) (key : String) : String :=
  (env key).getD ""

/-- The constructor `NewDistributionHandler`, in the environment `env`. -/
def NewDistributionHandler (env : Environ) (ring : ConsistentHashingRing) (currentNode : Node)
    (absolutePathSaveDir : String) : DistributionHandler :=
  let (maxBatchSize, err) := ParseInt (Getenv env "MAX_BATCH_SIZE").data 0
  let maxBatchSize := if err.isSome then 100 else maxBatchSize
  { Ring := ring
    CurrentNode := currentNode
    absolutePathSaveDir := absolutePathSaveDir
    MaxBatchSize := maxBatchSize }

/-! ## Messages and the row store -/

/-- Modelled from the spec: the message `pb.RowData` of the generated `api`
package, a row as a map from column name to string. -/
structure RowData where
  Data : List (String × String)
  deriving DecidableEq, Repr

/-- Modelled from the spec: the message `pb.SyncDataRequest` of the generated
`api` package, one frame of the `SyncData` stream. -/
structure SyncDataRequest where
  Sender : String
  Data : List RowData
  deriving DecidableEq, Repr

/-- Modelled from the spec: the message `pb.SyncDataResponse` of the generated
`api` package. -/
structure SyncDataResponse where
  Status : String
  Message : String
  deriving DecidableEq, Repr

/-- Modelled from the spec: the message `pb.WriteRequest` of the generated `api`
package, with the fields the handler sets. -/
structure WriteRequest where
  Date : String
  PageId : String
  Event : String
  ComponentId : String
  HashKey : Nat
  NodeType : String
  Name : String
  deriving DecidableEq, Repr

/-- The one-result index expression `m[key]` on a `map[string]string`. -/
def mapIndex (m : List (String × String)) (key : String) : String :=
  (m.lookup key).getD ""

/-- Modelled from the spec: the row store adapter (package `db`, not part of the
sources) as the handler calls it, over a store state `σ`.
`HandleInsert st nodeID req path` is the store after the call and the error
returned; `HandleRecordsFetchByHashKey st nodeID range path` is the rows or the
error returned. -/
structure RowStore (σ : Type) where
  HandleInsert : σ → String → WriteRequest → String → σ × Option String
  HandleRecordsFetchByHashKey : σ → String → TokenRange → String → Except String (List RowData)

/-! ## `HandleDataSync` (handler.go, lines 45-87) -/

/-- What a call of `HandleDataSync` does: the store it leaves, the calls of
`db.HandleInsert` it made (in order), and the response and error it returns. -/
structure SyncOutcome (σ : Type) where
  store : σ
  inserts : List WriteRequest
  resp : Option SyncDataResponse
  err : Option String

/-- The `pb.WriteRequest` built at lines 67-75 for a row. -/
def writeRequestOf (sender : String) (row : RowData) (hashedKey : Nat) : WriteRequest :=
  { Date := mapIndex row.Data "timestamp"
    PageId := mapIndex row.Data "page_id"
    Event := mapIndex row.Data "event"
    ComponentId := mapIndex row.Data "component_id"
    HashKey := hashedKey
    NodeType := "IS_NODE"
    Name := sender }

/-- The loop `for _, row := range req.Data` (lines 51-81) and the return that
follows it, from the store state `st` on the remaining rows. -/
def syncRows {σ : Type} (db : RowStore σ) (dh : DistributionHandler) (sender : String) :
    List RowData → σ → SyncOutcome σ
  | [], st =>
    { store := st
      inserts := []
      resp := some { Status := "success", Message := "Data synced successfully" }
      err := none }
  | row :: rest, st =>
    match row.Data.lookup "hashKey" with
    | none => { store := st, inserts := [], resp := none, err := none }
    | some hashedKeyString =>
      match ParseUint hashedKeyString.data 64 with
      | (_, some _) => { store := st, inserts := [], resp := none, err := none }
      | (hashedKey, none) =>
        let w := writeRequestOf sender row hashedKey
        match db.HandleInsert st dh.CurrentNode.ID w dh.absolutePathSaveDir with
        | (st1, some e) => { store := st1, inserts := [w], resp := none, err := some e }
        | (st1, none) =>
          let out := syncRows db dh sender rest st1
          { out with inserts := w :: out.inserts }

/-- The method `HandleDataSync`, on the store state `st`. -/
def HandleDataSync {σ : Type} (db : RowStore σ) (dh : DistributionHandler) (st : σ)
    (req : SyncDataRequest) : SyncOutcome σ :=
  syncRows db dh req.Sender req.Data st

/-! ## `sendDataForTokenRange` (handler.go, lines 117-188) -/

/-- The behaviour of the transport during one handoff: the error (or none) of
`grpc.Dial` on an address, of opening the `SyncData` stream, of the `k`-th call
of `stream.Send` (counted from 0), of `stream.CloseSend`, and the results of the
successive calls of `stream.Recv` that precede `io.EOF`. -/
structure Transport where
  Dial : String → Option String
  SyncData : Option String
  Send : Nat → SyncDataRequest → Option String
  CloseSend : Option String
  Recv : List (Except String SyncDataResponse)

/-- How a handoff ends. -/
inductive SendStatus where
  | fetchFailed
  | noNewOwner
  | dialFailed
  | streamFailed
  | sendFailed
  | closeFailed
  | recvFailed
  | completed
  | slicePanic
  | outOfFuel
  deriving DecidableEq, Repr

/-- The batching loop of lines 151-167, from index `i` with `k` requests sent
so far: the requests `stream.Send` accepted from here on, in order, and how the
loop ends (`completed` when the loop condition fails). `fuel` bounds the number
of evaluations of the loop condition. The slice expression `dataRows[i:end]`
panics unless `0 ≤ i ≤ end ≤ cap(dataRows)`; `end ≤ len(dataRows)` holds after
line 153-155. -/
def sendBatches (dh : DistributionHandler) (net : Transport) (dataRows : List RowData) :
    Nat → Int → Nat → List SyncDataRequest × SendStatus
  | 0, _, _ => ([], SendStatus.outOfFuel)
  | fuel + 1, i, k =>
    if i < (dataRows.length : Int) then
      let end0 := wrapInt (i + dh.MaxBatchSize)
      let end1 := if end0 > (dataRows.length : Int) then (dataRows.length : Int) else end0
      if 0 ≤ i ∧ i ≤ end1 then
        let batch := (dataRows.drop i.toNat).take (end1 - i).toNat
        let req : SyncDataRequest := { Sender := dh.CurrentNode.ID, Data := batch }
        match net.Send k req with
        | some _ => ([], SendStatus.sendFailed)
        | none =>
          let out := sendBatches dh net dataRows fuel (wrapInt (i + dh.MaxBatchSize)) (k + 1)
          (req :: out.1, out.2)
      else ([], SendStatus.slicePanic)
    else ([], SendStatus.completed)

/-- The response loop of lines 177-187. -/
def drainResponses : List (Except String SyncDataResponse) → SendStatus
  | [] => SendStatus.completed
  | Except.error _ :: _ => SendStatus.recvFailed
  | Except.ok _ :: rest => drainResponses rest

/-- What a call of `sendDataForTokenRange` does: the address it dialled, the
requests the stream accepted, and how it ended. -/
structure SendOutcome where
  dialled : Option String
  sent : List SyncDataRequest
  status : SendStatus
  deriving DecidableEq, Repr

/-- The method `sendDataForTokenRange`, on the store state `st` and with the
transport behaviour `net`; `replica` is `none` for a nil pointer. -/
def sendDataForTokenRange {σ : Type} (db : RowStore σ) (net : Transport)
    (dh : DistributionHandler) (st : σ) (fuel : Nat) (replica : Option Node)
    (tokenRange : TokenRange) : SendOutcome :=
  match db.HandleRecordsFetchByHashKey st dh.CurrentNode.ID tokenRange dh.absolutePathSaveDir with
  | Except.error _ => { dialled := none, sent := [], status := SendStatus.fetchFailed }
  | Except.ok dataRows =>
    match replica with
    | none => { dialled := none, sent := [], status := SendStatus.noNewOwner }
    | some replica =>
      let replicasAddress := replica.IPAddress ++ ":" ++ toString replica.Port
      match net.Dial replicasAddress with
      | some _ => { dialled := some replicasAddress, sent := [], status := SendStatus.dialFailed }
      | none =>
        match net.SyncData with
        | some _ =>
          { dialled := some replicasAddress, sent := [], status := SendStatus.streamFailed }
        | none =>
          let out := sendBatches dh net dataRows fuel 0 0
          if out.2 ≠ SendStatus.completed then
            { dialled := some replicasAddress, sent := out.1, status := out.2 }
          else
            match net.CloseSend with
            | some _ =>
              { dialled := some replicasAddress, sent := out.1, status := SendStatus.closeFailed }
            | none =>
              { dialled := some replicasAddress, sent := out.1,
                status := drainResponses net.Recv }

/-! ## Notions used to state the properties -/

/-- A decimal digit: one of the characters `0` to `9`. -/
def isDecimalDigit (c : Char) : Bool :=
  decide (48 ≤ c.toNat) && decide (c.toNat ≤ 57)

/-- The number a sequence of decimal digits denotes, most significant first. -/
def decimalValue (cs : List Char) : Nat :=
  cs.foldl (fun n c => 10 * n + (c.toNat - 48)) 0

/-- A decimal numeral: one decimal digit or more, and nothing else. -/
def isDecimalNumeral (cs : List Char) : Bool :=
  !cs.isEmpty && cs.all isDecimalDigit

/-- The string `s` is a decimal string of the natural number `n` (leading
zeros are allowed; the canonical decimal string of `n` is one of them). -/
def IsDecimalOf (s : String) (n : Nat) : Prop :=
  isDecimalNumeral s.data = true ∧ decimalValue s.data = n

instance (s : String) (n : Nat) : Decidable (IsDecimalOf s n) :=
  inferInstanceAs (Decidable (isDecimalNumeral s.data = true ∧ decimalValue s.data = n))

/-- The string `s` is a base-10 integer of value `z`: an optional sign followed
by a decimal numeral. -/
def DenotesInt (s : String) (z : Int) : Prop :=
  ∃ digits : List Char, isDecimalNumeral digits = true ∧
    ((s.data = digits ∧ z = (decimalValue digits : Int)) ∨
     (s.data = '+' :: digits ∧ z = (decimalValue digits : Int)) ∨
     (s.data = '-' :: digits ∧ z = -(decimalValue digits : Int)))

/-- The integer `z` fits a Go `int` (64 bits). -/
def FitsInt (z : Int) : Prop := -(2 ^ 63) ≤ z ∧ z ≤ 2 ^ 63 - 1

/-- A row is well formed for `HandleDataSync` when it has an entry `hashKey`
that is a decimal string of an unsigned 64-bit integer. -/
def wellFormedRow (row : RowData) : Bool :=
  match row.Data.lookup "hashKey" with
  | none => false
  | some s => isDecimalNumeral s.data && decide (decimalValue s.data < 2 ^ 64)

/-- The numeric value of the `hashKey` entry of a row. -/
def hashKeyValue (row : RowData) : Nat :=
  decimalValue (mapIndex row.Data "hashKey").data

/-- Every insert of the sequence `ws`, made in turn from the store state `st`,
succeeds. -/
def InsertsSucceed {σ : Type} (db : RowStore σ) (nodeID path : String) :
    σ → List WriteRequest → Prop
  | _, [] => True
  | st, w :: ws =>
    (db.HandleInsert st nodeID w path).2 = none ∧
      InsertsSucceed db nodeID path (db.HandleInsert st nodeID w path).1 ws

/-- The store state after the inserts of the sequence `ws`, made in turn from `st`. -/
def applyInserts {σ : Type} (db : RowStore σ) (nodeID path : String) :
    σ → List WriteRequest → σ
  | st, [] => st
  | st, w :: ws => applyInserts db nodeID path (db.HandleInsert st nodeID w path).1 ws

/-- The list `bs` cuts `l` into consecutive batches of exactly `B` elements,
except that the last batch may be shorter (but is not empty). -/
inductive Batched {α : Type} (B : Nat) : List α → List (List α) → Prop where
  | nil : Batched B [] []
  | last (l : List α) : l ≠ [] → l.length ≤ B → Batched B l [l]
  | cons (b rest : List α) (bs : List (List α)) :
      b.length = B → rest ≠ [] → Batched B rest bs → Batched B (b ++ rest) (b :: bs)

/-! A row store used in examples: the store is the list of rows inserted so
far; an insert with hash key 13 fails and leaves the store as it is. -/

def exStore : RowStore (List WriteRequest) :=
  { HandleInsert := fun st _ w _ =>
      if w.HashKey = 13 then (st, some "write failed") else (st ++ [w], none)
    HandleRecordsFetchByHashKey := fun _ _ _ _ => Except.ok [] }

/-- A transport on which every operation succeeds. -/
def exTransport : Transport :=
  { Dial := fun _ => none
    SyncData := none
    Send := fun _ _ => none
    CloseSend := none
    Recv := [] }

/-- A row with the given `hashKey` and `page_id`. -/
def exRow (hashKey pageId : String) : RowData :=
  { Data := [("page_id", pageId), ("component_id", "btn1"),
             ("timestamp", "2024-12-07T07:41:19Z"), ("event", "click"),
             ("hashKey", hashKey)] }

/-- A row without a `hashKey` entry. -/
def exRowNoKey : RowData :=
  { Data := [("page_id", "86"), ("component_id", "btn1"),
             ("timestamp", "2024-12-07T07:41:19Z"), ("event", "click")] }

/-- The handler of `n0` with a batch size of 2. -/
def exHandlerBatch2 : DistributionHandler :=
  { exHandler with MaxBatchSize := 2 }

/-- The handler of `n0` with a batch size of 1. -/
def exHandlerBatch1 : DistributionHandler :=
  { exHandler with MaxBatchSize := 1 }

/-- Rows to hand off: `n` rows with the hash keys `0`, ..., `n - 1`. -/
def exRows (n : Nat) : List RowData :=
  (List.range n).map (fun i => exRow (toString i) "19")

/-- An environment in which `MAX_BATCH_SIZE` is set to `250` and nothing else
is set. -/
def exEnviron : Environ := fun key =>
  if key = "MAX_BATCH_SIZE" then some "250" else none

/-- A row store on which no insert fails. -/
def exStoreReliable : RowStore (List WriteRequest) :=
  { HandleInsert := fun st _ w _ => (st ++ [w], none)
    HandleRecordsFetchByHashKey := fun _ _ _ _ => Except.ok [] }

/-- A sync request from `n1` with the hash keys `0` and `2 ^ 64 - 1`. -/
def exRequestBounds : SyncDataRequest :=
  { Sender := "n1", Data := [exRow "0" "19", exRow "18446744073709551615" "86"] }

/-- A sync request from `n1` whose first row has no `hashKey` entry. -/
def exRequestNoKeyFirst : SyncDataRequest :=
  { Sender := "n1", Data := [exRowNoKey, exRow "7" "42"] }

/-- A sync request from `n1` whose first row has a `hashKey` that is no number. -/
def exRequestBadKeyFirst : SyncDataRequest :=
  { Sender := "n1", Data := [exRow "seven" "19", exRow "7" "42"] }

/-- A sync request from `n1` whose last row has no `hashKey` entry. -/
def exRequestNoKeyLast : SyncDataRequest :=
  { Sender := "n1", Data := [exRow "7" "42", exRowNoKey] }

/-- A sync request from `n1` whose second row makes the insert of `exStore` fail. -/
def exRequestFailingInsert : SyncDataRequest :=
  { Sender := "n1", Data := [exRow "1" "19", exRow "13" "86", exRow "3" "42"] }

/-- An environment in which `MAX_BATCH_SIZE` is set to `0`. -/
def exEnvironZero : Environ := fun key =>
  if key = "MAX_BATCH_SIZE" then some "0" else none

/-- An environment in which `MAX_BATCH_SIZE` is set to `-1`. -/
def exEnvironNegative : Environ := fun key =>
  if key = "MAX_BATCH_SIZE" then some "-1" else none

/-- The handler `NewDistributionHandler` returns for `n0` with `MAX_BATCH_SIZE=0`. -/
def exHandlerZero : DistributionHandler :=
  NewDistributionHandler exEnvironZero exNewView.toRing exNode0 "data/n0.json"

/-- The handler `NewDistributionHandler` returns for `n0` with `MAX_BATCH_SIZE=-1`. -/
def exHandlerNegative : DistributionHandler :=
  NewDistributionHandler exEnvironNegative exNewView.toRing exNode0 "data/n0.json"

/-! # Properties -/

/-! ## Lemmas on `TriggerDataRedistribution` -/

theorem rangeFound_iff (r : TokenRange) (olds : List TokenRange) :
    rangeFound r olds = true ↔ ∃ o ∈ olds, r.Start = o.Start ∧ r.End = o.End := by
  induction olds with
  | nil => simp [rangeFound]
  | cons o rest ih =>
    by_cases h : r.Start = o.Start ∧ r.End = o.End
    · simp [rangeFound, h]
    · have h2 : ¬ (r.Start = o.Start ∧ r.End = o.End) := h
      simp only [rangeFound, beq_iff_eq, Bool.and_eq_true, decide_eq_true_eq]
      rw [if_neg h2, ih]
      simp [h]

theorem mem_spawnForRanges (dh : DistributionHandler) (old : RangeMap) (replica p : Node)
    (r : TokenRange) (ranges : List TokenRange) :
    (p, r) ∈ spawnForRanges dh old replica ranges ↔
      p = replica ∧ r ∈ ranges ∧ replica.ID ≠ dh.CurrentNode.ID ∧
        rangeFound r (old.index replica.ID) = false := by
  induction ranges with
  | nil => simp [spawnForRanges]
  | cons t rest ih =>
    simp only [spawnForRanges]
    split
    · rename_i hc
      simp only [Bool.and_eq_true, Bool.not_eq_true', bne_iff_ne, ne_eq] at hc
      simp only [List.mem_cons, Prod.mk.injEq, ih]
      constructor
      · rintro (⟨rfl, rfl⟩ | ⟨rfl, h1, h2, h3⟩)
        · exact ⟨rfl, Or.inl rfl, hc.2, hc.1⟩
        · exact ⟨rfl, Or.inr h1, h2, h3⟩
      · rintro ⟨rfl, h1 | h1, h2, h3⟩
        · exact Or.inl ⟨rfl, h1⟩
        · exact Or.inr ⟨rfl, h1, h2, h3⟩
    · rename_i hc
      simp only [Bool.and_eq_true, Bool.not_eq_true', bne_iff_ne, ne_eq, not_and,
        Decidable.not_not] at hc
      simp only [List.mem_cons, ih]
      constructor
      · rintro ⟨rfl, h1, h2, h3⟩
        exact ⟨rfl, Or.inr h1, h2, h3⟩
      · rintro ⟨rfl, h1 | h1, h2, h3⟩
        · subst h1
          exact absurd (hc h3) h2
        · exact ⟨rfl, h1, h2, h3⟩

theorem mem_spawnForMembers (dh : DistributionHandler) (old : RangeMap) (p : Node)
    (r : TokenRange) (members : List Node) :
    (p, r) ∈ spawnForMembers dh old members ↔
      p ∈ members ∧ r ∈ dh.Ring.GetTokenRangeForNode p.ID ∧ p.ID ≠ dh.CurrentNode.ID ∧
        rangeFound r (old.index p.ID) = false := by
  induction members with
  | nil => simp [spawnForMembers]
  | cons m rest ih =>
    simp only [spawnForMembers, List.mem_append, mem_spawnForRanges, ih, List.mem_cons]
    constructor
    · rintro (⟨rfl, h1, h2, h3⟩ | ⟨h0, h1, h2, h3⟩)
      · exact ⟨Or.inl rfl, h1, h2, h3⟩
      · exact ⟨Or.inr h0, h1, h2, h3⟩
    · rintro ⟨rfl | h0, h1, h2, h3⟩
      · exact Or.inl ⟨rfl, h1, h2, h3⟩
      · exact Or.inr ⟨h0, h1, h2, h3⟩


/-- C1: `TriggerDataRedistribution` spawns `sendDataForTokenRange(p, r)` exactly
for the pairs where `p` is a ring member other than the current node, `r` is
one of `p`'s current token ranges and no old range of `p` has the same `Start`
and the same `End`; it never spawns a handoff towards the current node; a
member absent from `oldTokenRanges` gets every one of its current ranges; and
the call returns a nil error. -/
theorem TriggerDataRedistribution_spawns_exactly (dh : DistributionHandler)
    (oldTokenRanges : RangeMap) :
    (∀ (p : Node) (r : TokenRange),
      (p, r) ∈ (TriggerDataRedistribution dh oldTokenRanges).spawned ↔
        (p ∈ dh.Ring.GetRingMembers ∧ p.ID ≠ dh.CurrentNode.ID ∧
          r ∈ dh.Ring.GetTokenRangeForNode p.ID ∧
          ¬ ∃ o ∈ oldTokenRanges.index p.ID, o.Start = r.Start ∧ o.End = r.End)) ∧
    (∀ (p : Node) (r : TokenRange),
      (p, r) ∈ (TriggerDataRedistribution dh oldTokenRanges).spawned →
        p.ID ≠ dh.CurrentNode.ID) ∧
    (∀ (p : Node) (r : TokenRange),
      p ∈ dh.Ring.GetRingMembers → p.ID ≠ dh.CurrentNode.ID → oldTokenRanges p.ID = none →
        r ∈ dh.Ring.GetTokenRangeForNode p.ID →
        (p, r) ∈ (TriggerDataRedistribution dh oldTokenRanges).spawned) ∧
    (TriggerDataRedistribution dh oldTokenRanges).err = none := by
  have key : ∀ (p : Node) (r : TokenRange),
      (p, r) ∈ (TriggerDataRedistribution dh oldTokenRanges).spawned ↔
        (p ∈ dh.Ring.GetRingMembers ∧ p.ID ≠ dh.CurrentNode.ID ∧
          r ∈ dh.Ring.GetTokenRangeForNode p.ID ∧
          ¬ ∃ o ∈ oldTokenRanges.index p.ID, o.Start = r.Start ∧ o.End = r.End) := by
    intro p r
    simp only [TriggerDataRedistribution, mem_spawnForMembers]
    have hf : rangeFound r (oldTokenRanges.index p.ID) = false ↔
        ¬ ∃ o ∈ oldTokenRanges.index p.ID, o.Start = r.Start ∧ o.End = r.End := by
      rw [← Bool.not_eq_true, rangeFound_iff]
      constructor
      · rintro h ⟨o, ho, h1, h2⟩
        exact h ⟨o, ho, h1.symm, h2.symm⟩
      · rintro h ⟨o, ho, h1, h2⟩
        exact h ⟨o, ho, h1.symm, h2.symm⟩
    rw [hf]
    constructor
    · rintro ⟨h0, h1, h2, h3⟩
      exact ⟨h0, h2, h1, h3⟩
    · rintro ⟨h0, h1, h2, h3⟩
      exact ⟨h0, h2, h1, h3⟩
  refine ⟨key, ?_, ?_, rfl⟩
  · intro p r h
    exact ((key p r).1 h).2.1
  · intro p r hp hne hnone hr
    refine (key p r).2 ⟨hp, hne, hr, ?_⟩
    simp [RangeMap.index, hnone]

/-- C1, at the ring change of the example: node `n0` spawns a handoff of
`(100, 150]` towards the joining node `n1`, which is absent from the old ranges. -/
theorem TriggerDataRedistribution_spawns_exactly_witness :
    (exNode1, ({ Start := 100, End := 150 } : TokenRange)) ∈
      (TriggerDataRedistribution exHandler exOldRanges).spawned :=
  (TriggerDataRedistribution_spawns_exactly exHandler exOldRanges).2.2.1 exNode1
    { Start := 100, End := 150 } (by decide) (by decide) (by decide) (by decide)

theorem spawnForRanges_congr (dh : DistributionHandler) (old old' : RangeMap)
    (h : ∀ id, id ≠ dh.CurrentNode.ID → old id = old' id) (replica : Node)
    (ranges : List TokenRange) :
    spawnForRanges dh old replica ranges = spawnForRanges dh old' replica ranges := by
  induction ranges with
  | nil => rfl
  | cons t rest ih =>
    by_cases hid : replica.ID = dh.CurrentNode.ID
    · simp [spawnForRanges, hid, ih]
    · simp [spawnForRanges, RangeMap.index, h replica.ID hid, ih]

/-- C2, refuted on the ring change of the example (four nodes, replication
factor 2, `n1` joining with token 150): node `n0` spawns the handoff of
`(100, 150]` towards `n1`, although the only range `n0` owned before,
`(250, 100]`, does not intersect it and `n0` is a replica of no token of the
range, neither on the new ring nor on the old one. -/
theorem TriggerDataRedistribution_spawns_without_previous_ownership :
    (exNode1, ({ Start := 100, End := 150 } : TokenRange)) ∈
      (TriggerDataRedistribution exHandler exOldRanges).spawned ∧
    exOldRanges.index exHandler.CurrentNode.ID = [{ Start := 250, End := 100 }] ∧
    (∀ o ∈ exOldRanges.index exHandler.CurrentNode.ID,
      ¬ rangesIntersect { Start := 100, End := 150 } o) ∧
    (∀ t : Nat, TokenRange.contains { Start := 100, End := 150 } t = true →
      exHandler.CurrentNode.ID ∉ replicas_for exNewView t ∧
      exHandler.CurrentNode.ID ∉ replicas_for exOldView t) := by
  have hold : exOldRanges.index exHandler.CurrentNode.ID = [{ Start := 250, End := 100 }] := by
    decide
  refine ⟨by decide, hold, ?_, ?_⟩
  · intro o ho
    rw [hold] at ho
    simp only [List.mem_singleton] at ho
    subst ho
    rintro ⟨t, _, h1, h2⟩
    simp [TokenRange.contains] at h1 h2
    omega
  · intro t ht
    simp [TokenRange.contains] at ht
    have h1 : ¬ t ≤ 100 := by omega
    have h2 : t ≤ 150 := ht.2
    have h3 : t ≤ 200 := by omega
    have h4 : t ≤ 250 := by omega
    have h5 : 100 < t := ht.1
    have h6 : ¬ 150 < t := by omega
    have h7 : ¬ 200 < t := by omega
    have h8 : ¬ 250 < t := by omega
    constructor
    · simp [replicas_for, exNewView, exHandler, exNode0, List.filter, h1, h2, h3, h4, h5, h6,
        h7, h8, collectDistinct]
    · simp [replicas_for, exOldView, exHandler, exNode0, List.filter, h1, h3, h4, h5, h7, h8,
        collectDistinct]

theorem mem_spawned_iff (dh : DistributionHandler) (old : RangeMap) (p : Node)
    (r : TokenRange) :
    (p, r) ∈ (TriggerDataRedistribution dh old).spawned ↔
      (p ∈ dh.Ring.GetRingMembers ∧ p.ID ≠ dh.CurrentNode.ID ∧
        r ∈ dh.Ring.GetTokenRangeForNode p.ID ∧
        ¬ ∃ o ∈ old.index p.ID, o.Start = r.Start ∧ o.End = r.End) := by
  simp only [TriggerDataRedistribution, mem_spawnForMembers]
  have hf : rangeFound r (old.index p.ID) = false ↔
      ¬ ∃ o ∈ old.index p.ID, o.Start = r.Start ∧ o.End = r.End := by
    rw [← Bool.not_eq_true, rangeFound_iff]
    constructor
    · rintro hn ⟨o, ho, h1, h2⟩
      exact hn ⟨o, ho, h1.symm, h2.symm⟩
    · rintro hn ⟨o, ho, h1, h2⟩
      exact hn ⟨o, ho, h1.symm, h2.symm⟩
  rw [hf]
  constructor
  · rintro ⟨h0, h1, h2, h3⟩
    exact ⟨h0, h2, h1, h3⟩
  · rintro ⟨h0, h1, h2, h3⟩
    exact ⟨h0, h2, h1, h3⟩

/-- C2, amended: `TriggerDataRedistribution` spawns a handoff for every range
`r` newly owned by a peer `p` other than the current node (`r` is one of `p`'s
current ranges and no old range of `p` has the same `Start` and `End`), whether
or not the current node owned a token of `r` before: the handoff is spawned
under any map of old ranges that agrees with the given one on every node id
other than the current node's, whatever that map records for the current node,
and two such maps yield the same handoffs altogether. -/
theorem TriggerDataRedistribution_independent_of_own_ranges (dh : DistributionHandler)
    (old old' : RangeMap) (h : ∀ id, id ≠ dh.CurrentNode.ID → old id = old' id) :
    (∀ (p : Node) (r : TokenRange),
      p ∈ dh.Ring.GetRingMembers → p.ID ≠ dh.CurrentNode.ID →
      r ∈ dh.Ring.GetTokenRangeForNode p.ID →
      (¬ ∃ o ∈ old.index p.ID, o.Start = r.Start ∧ o.End = r.End) →
        (p, r) ∈ (TriggerDataRedistribution dh old).spawned ∧
        (p, r) ∈ (TriggerDataRedistribution dh old').spawned) ∧
    TriggerDataRedistribution dh old = TriggerDataRedistribution dh old' := by
  have hmembers : ∀ members : List Node,
      spawnForMembers dh old members = spawnForMembers dh old' members := by
    intro members
    induction members with
    | nil => rfl
    | cons m rest ih =>
      simp only [spawnForMembers, ih, spawnForRanges_congr dh old old' h]
  have heq : TriggerDataRedistribution dh old = TriggerDataRedistribution dh old' := by
    unfold TriggerDataRedistribution
    rw [hmembers]
  refine ⟨?_, heq⟩
  intro p r hp hne hr hnew
  have hmem : (p, r) ∈ (TriggerDataRedistribution dh old).spawned :=
    (mem_spawned_iff dh old p r).2 ⟨hp, hne, hr, hnew⟩
  refine ⟨hmem, ?_⟩
  rw [← heq]
  exact hmem

/-- C2, amended, at the example: with the entry of `n0` removed from the old
ranges, `n0` still spawns the handoff of `(100, 150]` towards the joining node
`n1`, and the handoffs it spawns are unchanged. -/
theorem TriggerDataRedistribution_independent_of_own_ranges_witness :
    (exNode1, ({ Start := 100, End := 150 } : TokenRange)) ∈
      (TriggerDataRedistribution exHandler exOldRangesWithoutSelf).spawned ∧
    TriggerDataRedistribution exHandler exOldRanges =
      TriggerDataRedistribution exHandler exOldRangesWithoutSelf :=
  have t := TriggerDataRedistribution_independent_of_own_ranges exHandler exOldRanges
    exOldRangesWithoutSelf (by
      intro id hid
      have hid2 : id ≠ "n0" := hid
      simp [exOldRangesWithoutSelf, hid2])
  ⟨(t.1 exNode1 { Start := 100, End := 150 } (by decide) (by decide) (by decide)
      (by decide)).2, t.2⟩

/-! ## The batching loop -/

theorem wrapInt_of_fits (x : Int) (h0 : -(2 ^ 63) ≤ x) (h1 : x < 2 ^ 63) : wrapInt x = x := by
  unfold wrapInt
  omega

theorem Batched.nil_inv {α : Type} {B : Nat} {bs : List (List α)} (h : Batched B [] bs) :
    bs = [] := by
  generalize hl : ([] : List α) = l at h
  cases h with
  | nil => rfl
  | last l hne _ => exact absurd hl.symm hne
  | cons b rest bs _ hne _ =>
    have : rest = [] := (List.append_eq_nil.mp hl.symm).2
    exact absurd this hne

theorem Batched.join_eq {α : Type} {B : Nat} {l : List α} {bs : List (List α)}
    (h : Batched B l bs) : bs.flatten = l := by
  induction h with
  | nil => rfl
  | last l _ _ => simp
  | cons b rest bs _ _ _ ih => simp [ih]

theorem Batched.length_eq {α : Type} {B : Nat} (hB : 1 ≤ B) {l : List α} {bs : List (List α)}
    (h : Batched B l bs) : bs.length = (l.length + B - 1) / B := by
  induction h with
  | nil =>
    have : (0 + B - 1) / B = 0 := Nat.div_eq_of_lt (by omega)
    simpa using this.symm
  | last l hne hle =>
    have hpos : 1 ≤ l.length := List.length_pos.mpr hne
    have : (l.length + B - 1) / B = 1 := by
      apply Nat.div_eq_of_lt_le <;> omega
    simpa using this.symm
  | cons b rest bs hb _ _ ih =>
    have h1 : (b ++ rest).length + B - 1 = (rest.length + B - 1) + B := by
      simp only [List.length_append, hb]
      omega
    rw [h1, Nat.add_div_right _ (by omega), List.length_cons, ih]

theorem Batched.sizes {α : Type} {B : Nat} {l : List α} {bs : List (List α)}
    (h : Batched B l bs) (hB : 1 ≤ B) : ∀ b ∈ bs, 1 ≤ b.length ∧ b.length ≤ B := by
  induction h with
  | nil => simp
  | last l hne hle =>
    intro b hb
    simp only [List.mem_singleton] at hb
    subst hb
    exact ⟨List.length_pos.mpr hne, hle⟩
  | cons b rest bs hb _ _ ih =>
    intro c hc
    rcases List.mem_cons.mp hc with rfl | hc
    · omega
    · exact ih c hc

theorem Batched.full_but_last {α : Type} {B : Nat} {l : List α} {bs : List (List α)}
    (h : Batched B l bs) : ∀ b ∈ bs.dropLast, b.length = B := by
  induction h with
  | nil => simp
  | last l _ _ => simp
  | cons b rest bs hb hne hrest ih =>
    intro c hc
    cases bs with
    | nil => cases hrest; exact absurd rfl hne
    | cons b2 bs2 =>
      simp only [List.dropLast_cons₂, List.mem_cons] at hc
      rcases hc with rfl | hc
      · exact hb
      · exact ih c hc

theorem Batched.of_unit {α : Type} {l : List α} {bs : List (List α)} (h : Batched 1 l bs) :
    bs = l.map (fun a => [a]) := by
  induction h with
  | nil => rfl
  | last l hne hle =>
    match l, hne, hle with
    | [a], _, _ => rfl
    | _ :: _ :: _, _, hle => simp at hle
  | cons b rest bs hb _ _ ih =>
    match b, hb with
    | [a], _ => simp [ih]

theorem sendBatches_batched (dh : DistributionHandler) (net : Transport)
    (dataRows : List RowData) (b : Nat) (hb : dh.MaxBatchSize = (b : Int)) (hb1 : 1 ≤ b)
    (hbmax : b < 2 ^ 63) (hlen : dataRows.length ≤ 2 ^ 62)
    (hsend : ∀ k req, net.Send k req = none) :
    ∀ (fuel i k : Nat), (i = 0 ∨ b ≤ i) → dataRows.length ≤ fuel + i →
      ∃ bs : List (List RowData),
        sendBatches dh net dataRows (fuel + 1) (i : Int) k =
          (bs.map (fun d => { Sender := dh.CurrentNode.ID, Data := d }), SendStatus.completed) ∧
        Batched b (dataRows.drop i) bs := by
  intro fuel
  induction fuel with
  | zero =>
    intro i k _ hfuel
    refine ⟨[], ?_, ?_⟩
    · have hi : ¬ ((i : Int) < (dataRows.length : Int)) := by omega
      simp only [sendBatches, if_neg hi, List.map_nil]
    · rw [List.drop_eq_nil_of_le (by omega)]
      exact Batched.nil
  | succ fuel ih =>
    intro i k hinv hfuel
    by_cases hi : i < dataRows.length
    · have hcond : (i : Int) < (dataRows.length : Int) := by omega
      have hsum : (i : Int) + dh.MaxBatchSize = ((i + b : Nat) : Int) := by
        rw [hb]; push_cast; rfl
      have hfit : i + b < 2 ^ 63 := by
        rcases hinv with h0 | hle
        · omega
        · omega
      have hwrap : wrapInt ((i : Int) + dh.MaxBatchSize) = ((i + b : Nat) : Int) := by
        rw [hsum]
        apply wrapInt_of_fits <;> omega
      obtain ⟨bs, hrec, hbat⟩ := ih (i + b) (k + 1) (Or.inr (by omega)) (by omega)
      by_cases hlast : dataRows.length ≤ i + b
      · have hend : (if ((i + b : Nat) : Int) > (dataRows.length : Int)
            then (dataRows.length : Int) else ((i + b : Nat) : Int)) = (dataRows.length : Int) := by
          split <;> omega
        have hguard : 0 ≤ (i : Int) ∧ (i : Int) ≤ (dataRows.length : Int) := by omega
        have htake : ((dataRows.length : Int) - (i : Int)).toNat = dataRows.length - i := by omega
        have hdrop : dataRows.drop (i + b) = [] := List.drop_eq_nil_of_le hlast
        rw [hdrop] at hbat
        have hbs : bs = [] := Batched.nil_inv hbat
        subst hbs
        refine ⟨[dataRows.drop i], ?_, ?_⟩
        · rw [sendBatches]
          simp only [if_pos hcond, hwrap, hend, if_pos hguard, hsend, hrec, htake,
            Int.toNat_ofNat, List.map_nil, List.map_cons]
          rw [List.take_of_length_le (by simp)]
        · apply Batched.last
          · intro h
            have := List.drop_eq_nil_iff.mp h
            omega
          · simp only [List.length_drop]; omega
      · have hend : (if ((i + b : Nat) : Int) > (dataRows.length : Int)
            then (dataRows.length : Int) else ((i + b : Nat) : Int)) = ((i + b : Nat) : Int) := by
          split <;> omega
        have hguard : 0 ≤ (i : Int) ∧ (i : Int) ≤ ((i + b : Nat) : Int) := by omega
        have htake : (((i + b : Nat) : Int) - (i : Int)).toNat = b := by omega
        refine ⟨(dataRows.drop i).take b :: bs, ?_, ?_⟩
        · rw [sendBatches]
          simp only [if_pos hcond, hwrap, hend, if_pos hguard, hsend, hrec, htake,
            Int.toNat_ofNat, List.map_cons]
        · have hsplit : dataRows.drop i = (dataRows.drop i).take b ++ dataRows.drop (i + b) := by
            rw [← List.drop_drop, List.take_append_drop]
          rw [hsplit]
          have hsplit2 : ((dataRows.drop i).take b ++ dataRows.drop (i + b)).take b
              = (dataRows.drop i).take b := by
            rw [← hsplit]
          rw [hsplit2]
          apply Batched.cons
          · simp only [List.length_take, List.length_drop]; omega
          · intro h
            have := List.drop_eq_nil_iff.mp h
            omega
          · exact hbat
    · refine ⟨[], ?_, ?_⟩
      · have hi2 : ¬ ((i : Int) < (dataRows.length : Int)) := by omega
        simp only [sendBatches, if_neg hi2, List.map_nil]
      · rw [List.drop_eq_nil_of_le (by omega)]
        exact Batched.nil

theorem sendBatches_from_start (dh : DistributionHandler) (net : Transport)
    (dataRows : List RowData) (fuel : Nat)
    (hB : 1 ≤ dh.MaxBatchSize) (hBmax : dh.MaxBatchSize ≤ 2 ^ 63 - 1)
    (hlen : dataRows.length ≤ 2 ^ 62) (hsend : ∀ k req, net.Send k req = none)
    (hfuel : dataRows.length < fuel) :
    ∃ bs : List (List RowData),
      sendBatches dh net dataRows fuel 0 0 =
        (bs.map (fun d => { Sender := dh.CurrentNode.ID, Data := d }), SendStatus.completed) ∧
      Batched dh.MaxBatchSize.toNat dataRows bs := by
  have hb : dh.MaxBatchSize = (dh.MaxBatchSize.toNat : Int) := by omega
  obtain ⟨fuel, rfl⟩ : ∃ f, fuel = f + 1 := ⟨fuel - 1, by omega⟩
  have h := sendBatches_batched dh net dataRows dh.MaxBatchSize.toNat hb (by omega) (by omega)
    hlen hsend fuel 0 0 (Or.inl rfl) (by omega)
  simpa using h

theorem sendDataForTokenRange_sent {σ : Type} (db : RowStore σ) (net : Transport)
    (dh : DistributionHandler) (st : σ) (fuel : Nat) (replica : Node) (tokenRange : TokenRange)
    (dataRows : List RowData)
    (hfetch : db.HandleRecordsFetchByHashKey st dh.CurrentNode.ID tokenRange
      dh.absolutePathSaveDir = Except.ok dataRows)
    (hdial : ∀ address, net.Dial address = none) (hstream : net.SyncData = none) :
    (sendDataForTokenRange db net dh st fuel (some replica) tokenRange).sent =
      (sendBatches dh net dataRows fuel 0 0).1 := by
  unfold sendDataForTokenRange
  simp only [hfetch, hdial, hstream]
  split
  · rfl
  · split <;> rfl

/-- C3: with a batch size `B ≥ 1` and no failing send, the batching loop of
`sendDataForTokenRange` ends normally (given fuel above the number of rows)
after sending exactly `ceil (n / B)` requests for `n` fetched rows; every
request carries between 1 and `B` rows, every request but the last carries
exactly `B` rows, and no request is sent for `n = 0`. The bounds
`B ≤ 2 ^ 63 - 1` and `n ≤ 2 ^ 62` hold for every Go `int` and every slice. -/
theorem sendBatches_count_and_sizes (dh : DistributionHandler) (net : Transport)
    (dataRows : List RowData) (fuel : Nat)
    (hB : 1 ≤ dh.MaxBatchSize) (hBmax : dh.MaxBatchSize ≤ 2 ^ 63 - 1)
    (hlen : dataRows.length ≤ 2 ^ 62) (hsend : ∀ k req, net.Send k req = none)
    (hfuel : dataRows.length < fuel) :
    (sendBatches dh net dataRows fuel 0 0).2 = SendStatus.completed ∧
    (sendBatches dh net dataRows fuel 0 0).1.length =
      (dataRows.length + dh.MaxBatchSize.toNat - 1) / dh.MaxBatchSize.toNat ∧
    (∀ req ∈ (sendBatches dh net dataRows fuel 0 0).1,
      1 ≤ req.Data.length ∧ (req.Data.length : Int) ≤ dh.MaxBatchSize) ∧
    (∀ req ∈ (sendBatches dh net dataRows fuel 0 0).1.dropLast,
      (req.Data.length : Int) = dh.MaxBatchSize) ∧
    (dataRows = [] → (sendBatches dh net dataRows fuel 0 0).1 = []) := by
  obtain ⟨bs, hrun, hbat⟩ := sendBatches_from_start dh net dataRows fuel hB hBmax hlen hsend hfuel
  have hb1 : 1 ≤ dh.MaxBatchSize.toNat := by omega
  rw [hrun]
  refine ⟨rfl, ?_, ?_, ?_, ?_⟩
  · simp only [List.length_map]
    exact hbat.length_eq hb1
  · intro req hreq
    obtain ⟨d, hd, rfl⟩ := List.mem_map.mp hreq
    have := hbat.sizes hb1 d hd
    simp only
    omega
  · intro req hreq
    simp only [← List.map_dropLast] at hreq
    obtain ⟨d, hd, rfl⟩ := List.mem_map.mp hreq
    have := hbat.full_but_last d hd
    simp only
    omega
  · intro hnil
    subst hnil
    rw [Batched.nil_inv hbat]
    rfl

/-- C3, at 5 rows and a batch size of 2: three requests are sent. -/
theorem sendBatches_count_and_sizes_witness :
    (sendBatches exHandlerBatch2 exTransport (exRows 5) 6 0 0).1.length = 3 :=
  (sendBatches_count_and_sizes exHandlerBatch2 exTransport (exRows 5) 6
    (by decide) (by decide) (by decide) (fun _ _ => rfl) (by decide)).2.1

/-- C4: with a batch size `B ≥ 1` and no failing send, the rows of the requests
sent by the batching loop of `sendDataForTokenRange`, concatenated in send
order, are the fetched rows: none is lost, duplicated or reordered. Every
request names the current node as sender, and with `B = 1` the requests are the
fetched rows one by one, in scan order. The bounds `B ≤ 2 ^ 63 - 1` and
`n ≤ 2 ^ 62` hold for every Go `int` and every slice. -/
theorem sendBatches_preserves_rows (dh : DistributionHandler) (net : Transport)
    (dataRows : List RowData) (fuel : Nat)
    (hB : 1 ≤ dh.MaxBatchSize) (hBmax : dh.MaxBatchSize ≤ 2 ^ 63 - 1)
    (hlen : dataRows.length ≤ 2 ^ 62) (hsend : ∀ k req, net.Send k req = none)
    (hfuel : dataRows.length < fuel) :
    (sendBatches dh net dataRows fuel 0 0).2 = SendStatus.completed ∧
    ((sendBatches dh net dataRows fuel 0 0).1.map SyncDataRequest.Data).flatten = dataRows ∧
    (∀ req ∈ (sendBatches dh net dataRows fuel 0 0).1, req.Sender = dh.CurrentNode.ID) ∧
    (dh.MaxBatchSize = 1 →
      (sendBatches dh net dataRows fuel 0 0).1 =
        dataRows.map (fun row => { Sender := dh.CurrentNode.ID, Data := [row] })) := by
  obtain ⟨bs, hrun, hbat⟩ := sendBatches_from_start dh net dataRows fuel hB hBmax hlen hsend hfuel
  rw [hrun]
  refine ⟨rfl, ?_, ?_, ?_⟩
  · have hmap : (bs.map (fun d => ({ Sender := dh.CurrentNode.ID, Data := d } :
        SyncDataRequest))).map SyncDataRequest.Data = bs := by
      simp [List.map_map, Function.comp_def]
    simp only [hmap]
    exact hbat.join_eq
  · intro req hreq
    obtain ⟨d, _, rfl⟩ := List.mem_map.mp hreq
    rfl
  · intro h1
    have h1n : dh.MaxBatchSize.toNat = 1 := by omega
    rw [h1n] at hbat
    simp only [hbat.of_unit, List.map_map, Function.comp_def]

/-- C4, at 250 rows and a batch size of 1: 250 requests of one row each, in
scan order. -/
theorem sendBatches_preserves_rows_witness :
    (sendBatches exHandlerBatch1 exTransport (exRows 250) 251 0 0).1 =
      (exRows 250).map (fun row => { Sender := "n0", Data := [row] }) :=
  (sendBatches_preserves_rows exHandlerBatch1 exTransport (exRows 250) 251
    (by decide) (by decide) (by simp [exRows]) (fun _ _ => rfl) (by simp [exRows])).2.2.2 rfl

/-! ## `ParseUint` and `ParseInt` on decimal numerals -/

theorem maxUint64_eq : maxUint64 = 18446744073709551615 := by decide

theorem isDecimalDigit_iff (c : Char) :
    isDecimalDigit c = true ↔ 48 ≤ c.toNat ∧ c.toNat ≤ 57 := by
  simp [isDecimalDigit]

theorem le_foldl_decimal (cs : List Char) (n : Nat) :
    n ≤ cs.foldl (fun n c => 10 * n + (c.toNat - 48)) n := by
  induction cs generalizing n with
  | nil => exact Nat.le_refl n
  | cons c cs ih =>
    simp only [List.foldl_cons]
    exact Nat.le_trans (by omega) (ih _)

theorem parseUintLoop_of_digits (cs : List Char) (n : Nat)
    (hall : cs.all isDecimalDigit = true)
    (hval : cs.foldl (fun n c => 10 * n + (c.toNat - 48)) n < 2 ^ 64) :
    parseUintLoop (2 ^ 64 - 1) cs n =
      (cs.foldl (fun n c => 10 * n + (c.toNat - 48)) n, none) := by
  induction cs generalizing n with
  | nil => rfl
  | cons c cs ih =>
    simp only [List.all_cons, Bool.and_eq_true] at hall
    simp only [List.foldl_cons] at hval ⊢
    have hc := (isDecimalDigit_iff c).1 hall.1
    have hle := le_foldl_decimal cs (10 * n + (c.toNat - 48))
    have hn : ¬ (n ≥ maxUint64 / 10 + 1) := by
      rw [maxUint64_eq]
      omega
    have hd : ¬ (c.toNat - 48 ≥ 10) := by omega
    have h10 : n * 10 % 2 ^ 64 = n * 10 := Nat.mod_eq_of_lt (by omega)
    have h1 : (n * 10 + (c.toNat - 48)) % 2 ^ 64 = 10 * n + (c.toNat - 48) := by
      rw [Nat.mod_eq_of_lt (by omega)]
      omega
    have hov : ¬ (10 * n + (c.toNat - 48) < n * 10 ∨ 10 * n + (c.toNat - 48) > 2 ^ 64 - 1) := by
      omega
    rw [parseUintLoop]
    simp only [if_pos hc, if_neg hd, if_neg hn, h10, h1, if_neg hov]
    exact ih _ hall.2 hval

theorem parseUintLoop_ok_inv (cs : List Char) (n : Nat) (hn : n < 2 ^ 64)
    (h : (parseUintLoop (2 ^ 64 - 1) cs n).2 = none) :
    cs.all isDecimalDigit = true ∧
      cs.foldl (fun n c => 10 * n + (c.toNat - 48)) n < 2 ^ 64 := by
  induction cs generalizing n with
  | nil => exact ⟨rfl, hn⟩
  | cons c cs ih =>
    rw [parseUintLoop] at h
    simp only at h
    split at h
    · simp at h
    · rename_i d hdig
      split at h
      · simp at h
      · rename_i hd
        split at h
        · simp at h
        · rename_i hcut
          split at h
          · simp at h
          · rename_i hov
            rw [maxUint64_eq] at hcut
            have hc : 48 ≤ c.toNat ∧ c.toNat ≤ 57 := by
              by_contra hc
              rw [if_neg hc] at hdig
              split at hdig
              · simp only [Option.some.injEq] at hdig
                omega
              · simp at hdig
            rw [if_pos hc] at hdig
            simp only [Option.some.injEq] at hdig
            subst hdig
            have h1 : (n * 10 % 2 ^ 64 + (c.toNat - 48)) % 2 ^ 64 = 10 * n + (c.toNat - 48) := by
              omega
            rw [h1] at h
            have := ih (10 * n + (c.toNat - 48)) (by omega) h
            refine ⟨?_, ?_⟩
            · simp only [List.all_cons, Bool.and_eq_true]
              exact ⟨(isDecimalDigit_iff c).2 hc, this.1⟩
            · simpa only [List.foldl_cons] using this.2

theorem parseUintLoop_range_value (maxVal : Nat) (cs : List Char) (n : Nat)
    (h : (parseUintLoop maxVal cs n).2 = some NumError.ErrRange) :
    (parseUintLoop maxVal cs n).1 = maxVal := by
  induction cs generalizing n with
  | nil => simp [parseUintLoop] at h
  | cons c cs ih =>
    rw [parseUintLoop] at h ⊢
    simp only at h ⊢
    split at h
    · simp at h
    · split at h
      · simp at h
      · split at h
        · rename_i h1 h2 h3
          simp only [h1, if_neg h2, if_pos h3]
        · split at h
          · rename_i h1 h2 h3 h4
            simp only [h1, if_neg h2, if_neg h3, if_pos h4]
          · rename_i h1 h2 h3 h4
            simp only [h1, if_neg h2, if_neg h3, if_neg h4]
            exact ih _ h

theorem ParseUint_unfold (cs : List Char) (bitSize : Nat) (hbs : bitSize = 0 ∨ bitSize = 64)
    (hne : cs ≠ []) : ParseUint cs bitSize = parseUintLoop (2 ^ 64 - 1) cs 0 := by
  rcases hbs with rfl | rfl <;> simp [ParseUint, hne, IntSize]

theorem isDecimalNumeral_iff (cs : List Char) :
    isDecimalNumeral cs = true ↔ cs ≠ [] ∧ cs.all isDecimalDigit = true := by
  cases cs <;> simp [isDecimalNumeral]

theorem ParseUint_of_numeral (cs : List Char) (bitSize : Nat) (hbs : bitSize = 0 ∨ bitSize = 64)
    (hnum : isDecimalNumeral cs = true) (hval : decimalValue cs < 2 ^ 64) :
    ParseUint cs bitSize = (decimalValue cs, none) := by
  obtain ⟨hne, hall⟩ := (isDecimalNumeral_iff cs).1 hnum
  rw [ParseUint_unfold cs bitSize hbs hne]
  exact parseUintLoop_of_digits cs 0 hall hval

theorem ParseUint_ok_inv (cs : List Char) (bitSize : Nat) (hbs : bitSize = 0 ∨ bitSize = 64)
    (h : (ParseUint cs bitSize).2 = none) :
    isDecimalNumeral cs = true ∧ decimalValue cs < 2 ^ 64 := by
  have hne : cs ≠ [] := by
    rintro rfl
    simp [ParseUint] at h
  rw [ParseUint_unfold cs bitSize hbs hne] at h
  have := parseUintLoop_ok_inv cs 0 (by norm_num) h
  exact ⟨(isDecimalNumeral_iff cs).2 ⟨hne, this.1⟩, this.2⟩

theorem ParseUint_range_value (cs : List Char) (bitSize : Nat)
    (hbs : bitSize = 0 ∨ bitSize = 64)
    (h : (ParseUint cs bitSize).2 = some NumError.ErrRange) :
    (ParseUint cs bitSize).1 = 2 ^ 64 - 1 := by
  have hne : cs ≠ [] := by
    rintro rfl
    simp [ParseUint] at h
  rw [ParseUint_unfold cs bitSize hbs hne] at h ⊢
  exact parseUintLoop_range_value _ cs 0 h

theorem ParseUint_failure_iff (cs : List Char) :
    (ParseUint cs 64).2 ≠ none ↔ ¬ (isDecimalNumeral cs = true ∧ decimalValue cs < 2 ^ 64) := by
  constructor
  · rintro h ⟨h1, h2⟩
    rw [ParseUint_of_numeral cs 64 (Or.inr rfl) h1 h2] at h
    exact h rfl
  · intro h hnone
    exact h (ParseUint_ok_inv cs 64 (Or.inr rfl) hnone)

theorem ParseInt_of_numeral (cs : List Char) (hnum : isDecimalNumeral cs = true)
    (hval : decimalValue cs < 2 ^ 63) : ParseInt cs 0 = ((decimalValue cs : Int), none) := by
  obtain ⟨hne, hall⟩ := (isDecimalNumeral_iff cs).1 hnum
  have hU := ParseUint_of_numeral cs 0 (Or.inl rfl) hnum (by omega)
  have hw : wrapInt (decimalValue cs : Int) = (decimalValue cs : Int) :=
    wrapInt_of_fits _ (by omega) (by omega)
  have hcut : ¬ (decimalValue cs ≥ 2 ^ (IntSize - 1)) := by
    simp only [IntSize]
    omega
  unfold ParseInt
  rw [if_neg hne]
  split
  · rename_i neg digits hm
    split at hm
    · rename_i rest
      simp [isDecimalDigit] at hall
    · rename_i rest
      simp [isDecimalDigit] at hall
    · simp only [Prod.mk.injEq] at hm
      obtain ⟨rfl, rfl⟩ := hm
      rw [hU]
      simp [hcut, hw]

theorem ParseInt_ok_inv (s : String) (h : (ParseInt s.data 0).2 = none) :
    DenotesInt s (ParseInt s.data 0).1 ∧ FitsInt (ParseInt s.data 0).1 := by
  obtain ⟨z, e, hz⟩ : ∃ z e, ParseInt s.data 0 = (z, e) := ⟨_, _, rfl⟩
  rw [hz] at h ⊢
  simp only at h
  subst h
  unfold ParseInt at hz
  split at hz
  · simp at hz
  · rename_i hne
    split at hz
    rename_i neg digits hm
    split at hz
    rename_i un err hU
    have herr : err = none := by
      rcases err with _ | e
      · rfl
      · cases e with
        | ErrSyntax => simp at hz
        | ErrRange =>
          have hv := ParseUint_range_value digits 0 (Or.inl rfl) (by rw [hU])
          rw [hU] at hv
          simp only at hv
          subst hv
          cases neg <;> simp [IntSize] at hz
    subst herr
    have hinv := ParseUint_ok_inv digits 0 (Or.inl rfl) (by rw [hU])
    have hval := ParseUint_of_numeral digits 0 (Or.inl rfl) hinv.1 hinv.2
    rw [hU] at hval
    simp only [Prod.mk.injEq, and_true] at hval
    subst hval
    have hsign : (neg = false ∧ (s.data = digits ∨ s.data = '+' :: digits)) ∨
        (neg = true ∧ s.data = '-' :: digits) := by
      split at hm
      · rename_i rest hs
        simp only [Prod.mk.injEq] at hm
        obtain ⟨rfl, rfl⟩ := hm
        exact Or.inl ⟨rfl, Or.inr hs⟩
      · rename_i rest hs
        simp only [Prod.mk.injEq] at hm
        obtain ⟨rfl, rfl⟩ := hm
        exact Or.inr ⟨rfl, hs⟩
      · simp only [Prod.mk.injEq] at hm
        obtain ⟨rfl, rfl⟩ := hm
        exact Or.inl ⟨rfl, Or.inl rfl⟩
    simp only [IntSize, if_true, Nat.add_one_sub_one, reduceCtorEq, if_false] at hz
    rcases hsign with ⟨rfl, hs⟩ | ⟨rfl, hs⟩
    · simp only [Bool.not_false, Bool.true_and, decide_eq_true_eq, Bool.false_and,
        Bool.false_eq_true, if_false] at hz
      split at hz
      · simp at hz
      · rename_i hlt
        simp only [Prod.mk.injEq, and_true] at hz
        have hw : wrapInt (decimalValue digits : Int) = (decimalValue digits : Int) :=
          wrapInt_of_fits _ (by omega) (by omega)
        rw [hw] at hz
        subst hz
        refine ⟨⟨digits, hinv.1, ?_⟩, ?_⟩
        · rcases hs with hs | hs
          · exact Or.inl ⟨hs, rfl⟩
          · exact Or.inr (Or.inl ⟨hs, rfl⟩)
        · simp only [FitsInt]
          omega
    · simp only [Bool.not_true, Bool.false_and, Bool.false_eq_true, if_false, Bool.true_and,
        decide_eq_true_eq, if_true] at hz
      split at hz
      · simp at hz
      · rename_i hle
        simp only [Prod.mk.injEq, and_true] at hz
        have hw : wrapInt (-wrapInt (decimalValue digits : Int))
            = -(decimalValue digits : Int) := by
          unfold wrapInt
          omega
        rw [hw] at hz
        subst hz
        refine ⟨⟨digits, hinv.1, Or.inr (Or.inr ⟨hs, rfl⟩)⟩, ?_⟩
        simp only [FitsInt]
        omega

/-- C9: `NewDistributionHandler` keeps the ring, the current node and the save
path it is given; it sets `MaxBatchSize` to 100 when `MAX_BATCH_SIZE` is absent
or empty, and whenever its value is not a base-10 integer that fits an `int`;
and it sets `MaxBatchSize` to `n` when the value is a decimal string of a
positive integer `n` that fits an `int`. -/
theorem NewDistributionHandler_MaxBatchSize (env : Environ) (ring : ConsistentHashingRing)
    (currentNode : Node) (absolutePathSaveDir : String) :
    (NewDistributionHandler env ring currentNode absolutePathSaveDir).Ring = ring ∧
    (NewDistributionHandler env ring currentNode absolutePathSaveDir).CurrentNode
      = currentNode ∧
    (NewDistributionHandler env ring currentNode absolutePathSaveDir).absolutePathSaveDir
      = absolutePathSaveDir ∧
    (env "MAX_BATCH_SIZE" = none ∨ env "MAX_BATCH_SIZE" = some "" →
      (NewDistributionHandler env ring currentNode absolutePathSaveDir).MaxBatchSize = 100) ∧
    ((¬ ∃ z : Int, DenotesInt (Getenv env "MAX_BATCH_SIZE") z ∧ FitsInt z) →
      (NewDistributionHandler env ring currentNode absolutePathSaveDir).MaxBatchSize = 100) ∧
    (∀ n : Nat, IsDecimalOf (Getenv env "MAX_BATCH_SIZE") n → 0 < n → (n : Int) ≤ 2 ^ 63 - 1 →
      (NewDistributionHandler env ring currentNode absolutePathSaveDir).MaxBatchSize = n) := by
  have hsize : (NewDistributionHandler env ring currentNode absolutePathSaveDir).MaxBatchSize =
      if (ParseInt (Getenv env "MAX_BATCH_SIZE").data 0).2.isSome then 100
      else (ParseInt (Getenv env "MAX_BATCH_SIZE").data 0).1 := rfl
  refine ⟨rfl, rfl, rfl, ?_, ?_, ?_⟩
  · intro h
    have hempty : Getenv env "MAX_BATCH_SIZE" = "" := by
      rcases h with h | h <;> simp [Getenv, h]
    rw [hsize, hempty]
    rfl
  · intro h
    rw [hsize]
    cases herr : (ParseInt (Getenv env "MAX_BATCH_SIZE").data 0).2 with
    | some e => rfl
    | none =>
      exfalso
      exact h ⟨_, ParseInt_ok_inv _ herr⟩
  · intro n hdec _ hfit
    rw [hsize]
    obtain ⟨hnum, hval⟩ := hdec
    have hlt : decimalValue (Getenv env "MAX_BATCH_SIZE").data < 2 ^ 63 := by omega
    rw [ParseInt_of_numeral _ hnum hlt, hval]
    rfl

/-- C9, with `MAX_BATCH_SIZE=250`: the handler has a batch size of 250. -/
theorem NewDistributionHandler_MaxBatchSize_witness :
    (NewDistributionHandler exEnviron exNewView.toRing exNode0 "data/n0.json").MaxBatchSize
      = 250 :=
  (NewDistributionHandler_MaxBatchSize exEnviron exNewView.toRing exNode0
    "data/n0.json").2.2.2.2.2 250 (by decide) (by decide) (by decide)

/-! ## `HandleDataSync` -/

theorem wellFormedRow_parse (row : RowData) (h : wellFormedRow row = true) :
    ∃ s, row.Data.lookup "hashKey" = some s ∧
      ParseUint s.data 64 = (hashKeyValue row, none) := by
  unfold wellFormedRow at h
  split at h
  · simp at h
  · rename_i s hs
    simp only [Bool.and_eq_true, decide_eq_true_eq] at h
    refine ⟨s, hs, ?_⟩
    rw [ParseUint_of_numeral s.data 64 (Or.inr rfl) h.1 h.2]
    simp [hashKeyValue, mapIndex, hs]

theorem not_wellFormedRow_parse (row : RowData) (h : wellFormedRow row = false) :
    row.Data.lookup "hashKey" = none ∨
      ∃ s, row.Data.lookup "hashKey" = some s ∧ (ParseUint s.data 64).2 ≠ none := by
  unfold wellFormedRow at h
  split at h
  · rename_i hs
    exact Or.inl hs
  · rename_i s hs
    refine Or.inr ⟨s, hs, (ParseUint_failure_iff s.data).2 ?_⟩
    rintro ⟨h1, h2⟩
    simp [h1] at h
    omega

theorem syncRows_cons_malformed {σ : Type} (db : RowStore σ) (dh : DistributionHandler)
    (sender : String) (row : RowData) (rest : List RowData) (st : σ)
    (h : wellFormedRow row = false) :
    syncRows db dh sender (row :: rest) st =
      { store := st, inserts := [], resp := none, err := none } := by
  rcases not_wellFormedRow_parse row h with hs | ⟨s, hs, hp⟩
  · simp only [syncRows, hs]
  · rcases hU : ParseUint s.data 64 with ⟨v, e⟩
    rw [hU] at hp
    cases e with
    | none => exact absurd rfl hp
    | some e => simp only [syncRows, hs, hU]

theorem syncRows_cons_inserted {σ : Type} (db : RowStore σ) (dh : DistributionHandler)
    (sender : String) (row : RowData) (rest : List RowData) (st : σ)
    (h : wellFormedRow row = true)
    (hins : (db.HandleInsert st dh.CurrentNode.ID (writeRequestOf sender row (hashKeyValue row))
      dh.absolutePathSaveDir).2 = none) :
    syncRows db dh sender (row :: rest) st =
      { syncRows db dh sender rest
          (db.HandleInsert st dh.CurrentNode.ID (writeRequestOf sender row (hashKeyValue row))
            dh.absolutePathSaveDir).1 with
        inserts := writeRequestOf sender row (hashKeyValue row) ::
          (syncRows db dh sender rest
            (db.HandleInsert st dh.CurrentNode.ID
              (writeRequestOf sender row (hashKeyValue row)) dh.absolutePathSaveDir).1).inserts } := by
  obtain ⟨s, hs, hU⟩ := wellFormedRow_parse row h
  rcases hI : db.HandleInsert st dh.CurrentNode.ID (writeRequestOf sender row (hashKeyValue row))
    dh.absolutePathSaveDir with ⟨st1, r⟩
  rw [hI] at hins
  simp only at hins
  subst hins
  simp only [syncRows, hs, hU, hI]

theorem syncRows_cons_failed {σ : Type} (db : RowStore σ) (dh : DistributionHandler)
    (sender : String) (row : RowData) (rest : List RowData) (st : σ) (e : String)
    (h : wellFormedRow row = true)
    (hins : (db.HandleInsert st dh.CurrentNode.ID (writeRequestOf sender row (hashKeyValue row))
      dh.absolutePathSaveDir).2 = some e) :
    syncRows db dh sender (row :: rest) st =
      { store := (db.HandleInsert st dh.CurrentNode.ID
          (writeRequestOf sender row (hashKeyValue row)) dh.absolutePathSaveDir).1
        inserts := [writeRequestOf sender row (hashKeyValue row)]
        resp := none
        err := some e } := by
  obtain ⟨s, hs, hU⟩ := wellFormedRow_parse row h
  rcases hI : db.HandleInsert st dh.CurrentNode.ID (writeRequestOf sender row (hashKeyValue row))
    dh.absolutePathSaveDir with ⟨st1, r⟩
  rw [hI] at hins
  simp only at hins
  subst hins
  simp only [syncRows, hs, hU, hI]

theorem syncRows_append {σ : Type} (db : RowStore σ) (dh : DistributionHandler)
    (sender : String) (pre rest : List RowData) (st : σ)
    (hwf : ∀ row ∈ pre, wellFormedRow row = true)
    (hins : InsertsSucceed db dh.CurrentNode.ID dh.absolutePathSaveDir st
      (pre.map (fun row => writeRequestOf sender row (hashKeyValue row)))) :
    syncRows db dh sender (pre ++ rest) st =
      { syncRows db dh sender rest
          (applyInserts db dh.CurrentNode.ID dh.absolutePathSaveDir st
            (pre.map (fun row => writeRequestOf sender row (hashKeyValue row)))) with
        inserts := pre.map (fun row => writeRequestOf sender row (hashKeyValue row)) ++
          (syncRows db dh sender rest
            (applyInserts db dh.CurrentNode.ID dh.absolutePathSaveDir st
              (pre.map (fun row => writeRequestOf sender row (hashKeyValue row))))).inserts } := by
  induction pre generalizing st with
  | nil => rfl
  | cons row pre ih =>
    simp only [List.map_cons, InsertsSucceed] at hins
    have hrow := hwf row (List.mem_cons_self _ _)
    have hpre : ∀ r ∈ pre, wellFormedRow r = true :=
      fun r hr => hwf r (List.mem_cons_of_mem _ hr)
    rw [List.cons_append, syncRows_cons_inserted db dh sender row (pre ++ rest) st hrow hins.1,
      ih _ hpre hins.2]
    simp only [List.map_cons, applyInserts, List.cons_append]

theorem InsertsSucceed_of_forall {σ : Type} (db : RowStore σ) (nodeID path : String)
    (h : ∀ st w, (db.HandleInsert st nodeID w path).2 = none) (st : σ) (ws : List WriteRequest) :
    InsertsSucceed db nodeID path st ws := by
  induction ws generalizing st with
  | nil => trivial
  | cons w ws ih => exact ⟨h st w, ih _⟩

theorem wellFormedRow_of_decimal (row : RowData) (s : String) (n : Nat)
    (hs : row.Data.lookup "hashKey" = some s) (hdec : IsDecimalOf s n) (hn : n < 2 ^ 64) :
    wellFormedRow row = true ∧ hashKeyValue row = n := by
  obtain ⟨h1, h2⟩ := hdec
  constructor
  · simp only [wellFormedRow, hs, h1, h2, Bool.true_and, decide_eq_true_eq]
    exact hn
  · simp [hashKeyValue, mapIndex, hs, h2]

theorem exists_first_malformed (l : List RowData) (h : ∃ row ∈ l, wellFormedRow row = false) :
    ∃ bad post, l = l.takeWhile wellFormedRow ++ bad :: post ∧ wellFormedRow bad = false := by
  induction l with
  | nil => simp at h
  | cons a l ih =>
    cases ha : wellFormedRow a with
    | false => exact ⟨a, l, by simp [List.takeWhile, ha], ha⟩
    | true =>
      obtain ⟨row, hrow, hbad⟩ := h
      have hmem : row ∈ l := by
        rcases List.mem_cons.mp hrow with rfl | hm
        · rw [ha] at hbad; cases hbad
        · exact hm
      obtain ⟨bad, post, hl, hb⟩ := ih ⟨row, hmem, hbad⟩
      refine ⟨bad, post, ?_, hb⟩
      simp only [List.takeWhile, ha, List.cons_append]
      rw [← hl]

/-- C5: when every row of a sync request has a `hashKey` entry that is a decimal
string of an unsigned 64-bit integer and every insert succeeds, `HandleDataSync`
calls the row store's insert exactly once per row, in request order, with
`HashKey` the numeric value of that string, `Date`, `PageId`, `Event` and
`ComponentId` the row's `timestamp`, `page_id`, `event` and `component_id`
entries and `Name` the request's sender; it then returns the response with
status `success` and a nil error. -/
theorem HandleDataSync_inserts_every_row {σ : Type} (db : RowStore σ)
    (dh : DistributionHandler) (st : σ) (req : SyncDataRequest)
    (hkeys : ∀ row ∈ req.Data, ∃ (s : String) (n : Nat),
      row.Data.lookup "hashKey" = some s ∧ IsDecimalOf s n ∧ n < 2 ^ 64)
    (hins : InsertsSucceed db dh.CurrentNode.ID dh.absolutePathSaveDir st
      (req.Data.map (fun row => writeRequestOf req.Sender row (hashKeyValue row)))) :
    (HandleDataSync db dh st req).inserts =
      req.Data.map (fun row =>
        { Date := mapIndex row.Data "timestamp"
          PageId := mapIndex row.Data "page_id"
          Event := mapIndex row.Data "event"
          ComponentId := mapIndex row.Data "component_id"
          HashKey := hashKeyValue row
          NodeType := "IS_NODE"
          Name := req.Sender }) ∧
    (∀ row ∈ req.Data, ∀ (s : String) (n : Nat),
      row.Data.lookup "hashKey" = some s → IsDecimalOf s n → hashKeyValue row = n) ∧
    (HandleDataSync db dh st req).store =
      applyInserts db dh.CurrentNode.ID dh.absolutePathSaveDir st
        (req.Data.map (fun row => writeRequestOf req.Sender row (hashKeyValue row))) ∧
    (HandleDataSync db dh st req).resp =
      some { Status := "success", Message := "Data synced successfully" } ∧
    (HandleDataSync db dh st req).err = none := by
  have hwf : ∀ row ∈ req.Data, wellFormedRow row = true := by
    intro row hrow
    obtain ⟨s, n, hs, hdec, hn⟩ := hkeys row hrow
    exact (wellFormedRow_of_decimal row s n hs hdec hn).1
  have hrun := syncRows_append db dh req.Sender req.Data [] st hwf hins
  rw [List.append_nil] at hrun
  unfold HandleDataSync
  rw [hrun]
  refine ⟨?_, ?_, rfl, rfl, rfl⟩
  · simp only [syncRows, List.append_nil]
    rfl
  · intro row _ s n hs hdec
    simp [hashKeyValue, mapIndex, hs, hdec.2]

/-- C5, on a request with the hash keys `0` and `2 ^ 64 - 1`: both rows are
inserted, in order, with these numbers as `HashKey`. -/
theorem HandleDataSync_inserts_every_row_witness :
    (HandleDataSync exStore exHandler [] exRequestBounds).inserts =
      [{ Date := "2024-12-07T07:41:19Z", PageId := "19", Event := "click",
         ComponentId := "btn1", HashKey := 0, NodeType := "IS_NODE", Name := "n1" },
       { Date := "2024-12-07T07:41:19Z", PageId := "86", Event := "click",
         ComponentId := "btn1", HashKey := 18446744073709551615, NodeType := "IS_NODE",
         Name := "n1" }] :=
  (HandleDataSync_inserts_every_row exStore exHandler [] exRequestBounds
    (by
      intro row hrow
      simp only [exRequestBounds, List.mem_cons, List.mem_singleton, List.not_mem_nil,
        or_false] at hrow
      rcases hrow with rfl | rfl
      · exact ⟨"0", 0, by decide, by decide, by decide⟩
      · exact ⟨"18446744073709551615", 18446744073709551615, by decide, by decide, by decide⟩)
    (by
      simp only [exRequestBounds, List.map_cons, List.map_nil, InsertsSucceed]
      decide)).1

/-- C6, refuted: in a request whose first row has no `hashKey` entry, or a
`hashKey` that is no number, the second row is not inserted although its
`hashKey` entry `7` is present and parses as an unsigned 64-bit decimal; no
insert is made at all. -/
theorem HandleDataSync_drops_rows_after_malformed :
    (exRow "7" "42").Data.lookup "hashKey" = some "7" ∧
    ParseUint "7".data 64 = (7, none) ∧
    exRowNoKey.Data.lookup "hashKey" = none ∧
    exRow "7" "42" ∈ exRequestNoKeyFirst.Data ∧
    (HandleDataSync exStore exHandler [] exRequestNoKeyFirst).inserts = [] ∧
    (HandleDataSync exStore exHandler [] exRequestNoKeyFirst).store = [] ∧
    (ParseUint "seven".data 64).2 = some NumError.ErrSyntax ∧
    exRow "7" "42" ∈ exRequestBadKeyFirst.Data ∧
    (HandleDataSync exStore exHandler [] exRequestBadKeyFirst).inserts = [] ∧
    (HandleDataSync exStore exHandler [] exRequestBadKeyFirst).store = [] := by
  decide

/-- C6, amended: `HandleDataSync` stops at the first malformed row (a row with
no `hashKey` entry, or one that is not a decimal string of an unsigned 64-bit
integer). The rows before it are inserted, in order, as long as their inserts
succeed; neither the malformed row nor any row after it is inserted, and the
store is left as these inserts made it. -/
theorem HandleDataSync_stops_at_first_malformed {σ : Type} (db : RowStore σ)
    (dh : DistributionHandler) (st : σ) (sender : String) (pre post : List RowData)
    (bad : RowData)
    (hpre : ∀ row ∈ pre, wellFormedRow row = true) (hbad : wellFormedRow bad = false)
    (hins : InsertsSucceed db dh.CurrentNode.ID dh.absolutePathSaveDir st
      (pre.map (fun row => writeRequestOf sender row (hashKeyValue row)))) :
    (HandleDataSync db dh st { Sender := sender, Data := pre ++ bad :: post }).inserts =
      pre.map (fun row => writeRequestOf sender row (hashKeyValue row)) ∧
    (HandleDataSync db dh st { Sender := sender, Data := pre ++ bad :: post }).store =
      applyInserts db dh.CurrentNode.ID dh.absolutePathSaveDir st
        (pre.map (fun row => writeRequestOf sender row (hashKeyValue row))) := by
  unfold HandleDataSync
  simp only
  rw [syncRows_append db dh sender pre (bad :: post) st hpre hins,
    syncRows_cons_malformed db dh sender bad post _ hbad]
  simp

/-- C6, amended, on a request of three rows whose second row has no `hashKey`
entry: only the first row is inserted. -/
theorem HandleDataSync_stops_at_first_malformed_witness :
    (HandleDataSync exStore exHandler []
      { Sender := "n1", Data := [exRow "7" "42"] ++ exRowNoKey :: [exRow "8" "19"] }).inserts =
      [exRow "7" "42"].map (fun row => writeRequestOf "n1" row (hashKeyValue row)) :=
  (HandleDataSync_stops_at_first_malformed exStore exHandler [] "n1" [exRow "7" "42"]
    [exRow "8" "19"] exRowNoKey (by decide) (by decide)
    (by
      simp only [List.map_cons, List.map_nil, InsertsSucceed]
      decide)).1

/-- C7, refuted: for a request whose last row has no `hashKey` entry, with the
one insert it makes succeeding, `HandleDataSync` returns no response at all
(a nil response with a nil error), not a response with status `success`. -/
theorem HandleDataSync_missing_key_returns_no_response :
    exRowNoKey ∈ exRequestNoKeyLast.Data ∧
    exRowNoKey.Data.lookup "hashKey" = none ∧
    (HandleDataSync exStoreReliable exHandler [] exRequestNoKeyLast).inserts =
      [writeRequestOf "n1" (exRow "7" "42") 7] ∧
    (HandleDataSync exStoreReliable exHandler [] exRequestNoKeyLast).store =
      [writeRequestOf "n1" (exRow "7" "42") 7] ∧
    (HandleDataSync exStoreReliable exHandler [] exRequestNoKeyLast).resp = none ∧
    (HandleDataSync exStoreReliable exHandler [] exRequestNoKeyLast).err = none := by
  decide

/-- C7, amended: for every sync request that contains a row without a `hashKey`
entry, on a row store whose inserts do not fail, `HandleDataSync` returns a nil
response and a nil error; the inserts it made are those of the well-formed rows
that precede the first malformed row, so the malformed row is dropped. -/
theorem HandleDataSync_missing_key_reply {σ : Type} (db : RowStore σ)
    (dh : DistributionHandler) (st : σ) (req : SyncDataRequest)
    (hmiss : ∃ row ∈ req.Data, row.Data.lookup "hashKey" = none)
    (hins : ∀ (st : σ) (w : WriteRequest),
      (db.HandleInsert st dh.CurrentNode.ID w dh.absolutePathSaveDir).2 = none) :
    (HandleDataSync db dh st req).resp = none ∧
    (HandleDataSync db dh st req).err = none ∧
    (HandleDataSync db dh st req).inserts =
      (req.Data.takeWhile wellFormedRow).map
        (fun row => writeRequestOf req.Sender row (hashKeyValue row)) ∧
    (HandleDataSync db dh st req).inserts.length < req.Data.length := by
  have hex : ∃ row ∈ req.Data, wellFormedRow row = false := by
    obtain ⟨row, hrow, hnone⟩ := hmiss
    exact ⟨row, hrow, by simp [wellFormedRow, hnone]⟩
  obtain ⟨bad, post, hsplit, hbad⟩ := exists_first_malformed req.Data hex
  have hpre : ∀ row ∈ req.Data.takeWhile wellFormedRow, wellFormedRow row = true :=
    fun row hrow => List.mem_takeWhile_imp hrow
  have hrun : HandleDataSync db dh st req =
      syncRows db dh req.Sender (req.Data.takeWhile wellFormedRow ++ bad :: post) st := by
    rw [← hsplit]
    rfl
  rw [hrun, syncRows_append db dh req.Sender _ (bad :: post) st hpre
      (InsertsSucceed_of_forall db _ _ hins st _),
    syncRows_cons_malformed db dh req.Sender bad post _ hbad]
  refine ⟨rfl, rfl, by simp, ?_⟩
  have hlen := congrArg List.length hsplit
  simp only [List.length_append, List.length_cons] at hlen
  simp only [List.append_nil, List.length_map]
  omega

/-- C7, amended, on a request whose last row has no `hashKey` entry: the reply
is a nil response. -/
theorem HandleDataSync_missing_key_reply_witness :
    (HandleDataSync exStoreReliable exHandler [] exRequestNoKeyLast).resp = none :=
  (HandleDataSync_missing_key_reply exStoreReliable exHandler [] exRequestNoKeyLast
    ⟨exRowNoKey, by decide, by decide⟩ (fun _ _ => rfl)).1

/-- C8: when the insert of the `k`-th row fails, the rows before it being well
formed and inserted successfully, `HandleDataSync` returns that insert's error
and no response; the inserts it made are those of the first `k` rows, in order,
so none is attempted for a later row; and the store is the one the first `k - 1`
inserts produced, as the failing call left it. -/
theorem HandleDataSync_insert_failure_aborts {σ : Type} (db : RowStore σ)
    (dh : DistributionHandler) (st : σ) (sender : String) (pre post : List RowData)
    (row : RowData) (e : String)
    (hpre : ∀ r ∈ pre, wellFormedRow r = true) (hrow : wellFormedRow row = true)
    (hins : InsertsSucceed db dh.CurrentNode.ID dh.absolutePathSaveDir st
      (pre.map (fun r => writeRequestOf sender r (hashKeyValue r))))
    (hfail : (db.HandleInsert
      (applyInserts db dh.CurrentNode.ID dh.absolutePathSaveDir st
        (pre.map (fun r => writeRequestOf sender r (hashKeyValue r))))
      dh.CurrentNode.ID (writeRequestOf sender row (hashKeyValue row))
      dh.absolutePathSaveDir).2 = some e) :
    (HandleDataSync db dh st { Sender := sender, Data := pre ++ row :: post }).err = some e ∧
    (HandleDataSync db dh st { Sender := sender, Data := pre ++ row :: post }).resp = none ∧
    (HandleDataSync db dh st { Sender := sender, Data := pre ++ row :: post }).inserts =
      (pre ++ [row]).map (fun r => writeRequestOf sender r (hashKeyValue r)) ∧
    (HandleDataSync db dh st { Sender := sender, Data := pre ++ row :: post }).store =
      (db.HandleInsert
        (applyInserts db dh.CurrentNode.ID dh.absolutePathSaveDir st
          (pre.map (fun r => writeRequestOf sender r (hashKeyValue r))))
        dh.CurrentNode.ID (writeRequestOf sender row (hashKeyValue row))
        dh.absolutePathSaveDir).1 := by
  unfold HandleDataSync
  simp only
  rw [syncRows_append db dh sender pre (row :: post) st hpre hins,
    syncRows_cons_failed db dh sender row post _ e hrow hfail]
  simp

/-- C8, on a request of three rows where the insert of the second row fails:
the error of that insert is returned, the first row stays in the store and the
third row is never inserted. -/
theorem HandleDataSync_insert_failure_aborts_witness :
    (HandleDataSync exStore exHandler [] exRequestFailingInsert).err = some "write failed" ∧
    (HandleDataSync exStore exHandler [] exRequestFailingInsert).resp = none ∧
    (HandleDataSync exStore exHandler [] exRequestFailingInsert).inserts =
      [writeRequestOf "n1" (exRow "1" "19") 1, writeRequestOf "n1" (exRow "13" "86") 13] ∧
    (HandleDataSync exStore exHandler [] exRequestFailingInsert).store =
      [writeRequestOf "n1" (exRow "1" "19") 1] :=
  HandleDataSync_insert_failure_aborts exStore exHandler [] "n1" [exRow "1" "19"]
    [exRow "3" "42"] (exRow "13" "86") "write failed" (by decide) (by decide)
    (by
      simp only [List.map_cons, List.map_nil, InsertsSucceed]
      decide)
    (by decide)

/-! ## Batch sizes that are not positive -/

theorem sendBatches_zero_batch (dh : DistributionHandler) (net : Transport)
    (dataRows : List RowData) (h0 : dh.MaxBatchSize = 0) (hne : dataRows ≠ [])
    (hsend : ∀ k req, net.Send k req = none) :
    ∀ (fuel k : Nat), sendBatches dh net dataRows fuel 0 k =
      (List.replicate fuel { Sender := dh.CurrentNode.ID, Data := [] },
        SendStatus.outOfFuel) := by
  have hlen : (0 : Int) < (dataRows.length : Int) := by
    have := List.length_pos.mpr hne
    omega
  have hw : wrapInt (0 + dh.MaxBatchSize) = 0 := by
    rw [h0]
    decide
  have hend : (if (0 : Int) > (dataRows.length : Int) then (dataRows.length : Int) else 0) = 0 := by
    split
    · omega
    · rfl
  have hguard : (0 : Int) ≤ 0 ∧ (0 : Int) ≤ 0 := ⟨Int.le_refl 0, Int.le_refl 0⟩
  intro fuel
  induction fuel with
  | zero =>
    intro k
    rfl
  | succ fuel ih =>
    intro k
    rw [sendBatches]
    simp only [if_pos hlen, hw, hend, if_pos hguard, hsend, ih (k + 1)]
    rfl

theorem sendBatches_negative_batch (dh : DistributionHandler) (net : Transport)
    (dataRows : List RowData) (hneg : dh.MaxBatchSize < 0)
    (hmin : -(2 ^ 63) ≤ dh.MaxBatchSize) (hne : dataRows ≠ []) (fuel k : Nat) :
    sendBatches dh net dataRows (fuel + 1) 0 k = ([], SendStatus.slicePanic) := by
  have hlen : (0 : Int) < (dataRows.length : Int) := by
    have := List.length_pos.mpr hne
    omega
  have hw : wrapInt (0 + dh.MaxBatchSize) = dh.MaxBatchSize := by
    rw [Int.zero_add]
    exact wrapInt_of_fits _ hmin (by omega)
  have hend : (if dh.MaxBatchSize > (dataRows.length : Int) then (dataRows.length : Int)
      else dh.MaxBatchSize) = dh.MaxBatchSize := by
    split
    · omega
    · rfl
  have hguard : ¬ ((0 : Int) ≤ 0 ∧ (0 : Int) ≤ dh.MaxBatchSize) := by omega
  rw [sendBatches]
  simp only [if_pos hlen, hw, hend, if_neg hguard]

/-- C11, evaluated where it fails. With `MAX_BATCH_SIZE=0` the handler returned
by `NewDistributionHandler` has `MaxBatchSize = 0`; on one fetched row the
batching loop then sends an empty request at index 0 in every iteration and is
still running when any amount of fuel is used up: the index never advances and
the loop does not terminate. With `MAX_BATCH_SIZE=-1` the handler has
`MaxBatchSize = -1` and the first slice expression `dataRows[0:-1]` panics. -/
theorem NewDistributionHandler_admits_nonpositive_batch_size :
    exHandlerZero.MaxBatchSize = 0 ∧
    (∀ fuel : Nat, sendBatches exHandlerZero exTransport (exRows 1) fuel 0 0 =
      (List.replicate fuel { Sender := "n0", Data := [] }, SendStatus.outOfFuel)) ∧
    exHandlerNegative.MaxBatchSize = -1 ∧
    (∀ fuel : Nat, sendBatches exHandlerNegative exTransport (exRows 1) (fuel + 1) 0 0 =
      ([], SendStatus.slicePanic)) := by
  have hrows : exRows 1 ≠ [] := by decide
  have hzero : exHandlerZero.MaxBatchSize = 0 := by decide
  have hneg : exHandlerNegative.MaxBatchSize = -1 := by decide
  refine ⟨hzero, ?_, hneg, ?_⟩
  · intro fuel
    exact sendBatches_zero_batch exHandlerZero exTransport (exRows 1) hzero hrows
      (fun _ _ => rfl) fuel 0
  · intro fuel
    exact sendBatches_negative_batch exHandlerNegative exTransport (exRows 1)
      (by rw [hneg]; decide) (by rw [hneg]; decide) hrows fuel 0

end DataBalancing
